import Mathlib

/-!
# Verification of the omni-transactions-sdk key-derivation and signing layer

This development shallowly embeds the NEAR Chain Signatures SDK
(`omni-key.ts`, `contract-types.ts`, `contract.ts` and the second
`Contract` variant) in Lean 4 and proves/refutes the frozen claims about
it.

Modelling conventions:
* JavaScript `bigint` values are `Nat` (all values involved are
  non-negative); byte strings are `List Nat` with elements `< 256`.
* The secp256k1 curve subgroup generated by the base point `G` is cyclic
  of prime order `secpN` (standard curve parameters: cofactor 1), so for
  the purely algebraic claims a point of that subgroup is represented by
  its discrete logarithm in `ZMod secpN`; `G` is `1`, point addition is
  `+`, and `k·G` is the coercion of `k`.  For the serialization claims a
  point is represented by its affine coordinates.
* Fallible library calls (`throw` in TypeScript) become `Except String`.
* SHA3-256 (from `@noble/hashes`) is implemented in full below so that
  derivation can be evaluated on concrete `(predecessorId, path)` inputs.
-/

set_option maxRecDepth 100000

/-- secp256k1 group order `n` (`secp256k1.CURVE.n` in noble-curves). -/
def secpN : Nat :=
  115792089237316195423570985008687907852837564279074904382605163141518161494337

/-- secp256k1 coordinate-field prime `p` (`secp256k1.CURVE.Fp.ORDER`);
`Fp.create x` reduces `x` modulo this prime. -/
def secpP : Nat :=
  115792089237316195423570985008687907853269984665640564039457584007908834671663

/-- `bytesToNumberBE` from `@noble/curves/utils`: big-endian byte list to
natural number. -/
def bytesToNumberBE (bs : List Nat) : Nat :=
  bs.foldl (fun acc b => acc * 256 + b) 0

/-- `numberToBytesBE` from `@noble/curves/utils`: fixed-width big-endian
encoding. -/
def numberToBytesBE : Nat → Nat → List Nat
  | _, 0 => []
  | v, len + 1 => numberToBytesBE (v / 256) len ++ [v % 256]

/-! ## SHA3-256 (Keccak), as computed by `@noble/hashes/sha3` -/

/-- 64-bit lane mask. -/
def mask64 : Nat := 2 ^ 64 - 1

/-- Left rotation of a 64-bit lane. -/
def rotl64 (w k : Nat) : Nat :=
  ((w <<< (k % 64)) ||| (w >>> (64 - k % 64))) &&& mask64

/-- Read lane `(x, y)` (coordinates mod 5) of a 25-lane Keccak state. -/
def lane (s : List Nat) (x y : Nat) : Nat :=
  s.getD (x % 5 + 5 * (y % 5)) 0

/-- Keccak θ step. -/
def keccakTheta (s : List Nat) : List Nat :=
  let c := (List.range 5).map fun x =>
    lane s x 0 ^^^ lane s x 1 ^^^ lane s x 2 ^^^ lane s x 3 ^^^ lane s x 4
  let d := (List.range 5).map fun x =>
    c.getD ((x + 4) % 5) 0 ^^^ rotl64 (c.getD ((x + 1) % 5) 0) 1
  (List.range 25).map fun i => s.getD i 0 ^^^ d.getD (i % 5) 0

/-- Keccak ρ rotation offsets, indexed by `x + 5 * y`, generated as in
FIPS 202: starting from lane `(1, 0)`, step `t` assigns offset
`(t+1)(t+2)/2 mod 64` and moves to lane `(y, (2x+3y) mod 5)`; lane
`(0, 0)` keeps offset `0`. -/
def keccakRhoOffsets : List Nat :=
  ((List.range 24).foldl
    (fun st t =>
      (st.2.1, (2 * st.1 + 3 * st.2.1) % 5,
        st.2.2.set (st.1 + 5 * st.2.1) (((t + 1) * (t + 2) / 2) % 64)))
    (1, 0, List.replicate 25 0)).2.2

/-- Keccak ρ and π steps combined: the target lane `(X, Y)` receives the
rotated source lane `(X + 3Y, X)`. -/
def keccakRhoPi (s : List Nat) : List Nat :=
  (List.range 25).map fun i =>
    let xt := i % 5
    let yt := i / 5
    let x := (xt + 3 * yt) % 5
    let y := xt
    rotl64 (lane s x y) (keccakRhoOffsets.getD (x + 5 * y) 0)

/-- Keccak χ step. -/
def keccakChi (s : List Nat) : List Nat :=
  (List.range 25).map fun i =>
    let x := i % 5
    let y := i / 5
    lane s x y ^^^ ((lane s (x + 1) y ^^^ mask64) &&& lane s (x + 2) y)

/-- Keccak ι step: XOR the round constant into lane 0. -/
def keccakIota (rc : Nat) (s : List Nat) : List Nat :=
  (s.getD 0 0 ^^^ rc) :: s.drop 1

/-- One step of the degree-8 LFSR behind the Keccak round-constant bits
(FIPS 202, polynomial `x⁸ + x⁶ + x⁵ + x⁴ + 1`). -/
def keccakLfsrStep (r : Nat) : Nat :=
  if (r <<< 1) &&& 0x100 = 0 then (r <<< 1) &&& 0xFF
  else ((r <<< 1) ^^^ 0x171) &&& 0xFF

/-- The round-constant bit `rc(t)`. -/
def keccakRcBit (t : Nat) : Nat := (keccakLfsrStep^[t] 1) &&& 1

/-- The 24 Keccak-f[1600] round constants, generated as in FIPS 202:
bit `2^j − 1` of constant `i` is `rc(j + 7i)`.  (Their correctness, like
that of the whole permutation, is pinned by the SHA3-256 known-answer
theorems below.) -/
def keccakRC : List Nat :=
  (List.range 24).map fun i =>
    (List.range 7).foldl (fun acc j => acc ||| (keccakRcBit (j + 7 * i) <<< (2 ^ j - 1))) 0

/-- The Keccak-f[1600] permutation. -/
def keccakF (s : List Nat) : List Nat :=
  keccakRC.foldl (fun st rc => keccakIota rc (keccakChi (keccakRhoPi (keccakTheta st)))) s

/-- Interpret up to 8 bytes as a little-endian 64-bit lane. -/
def bytesToLaneLE (bs : List Nat) : Nat :=
  bs.foldr (fun b acc => b + 256 * acc) 0

/-- Little-endian bytes of a 64-bit lane. -/
def laneToBytesLE (w : Nat) : List Nat :=
  (List.range 8).map fun i => (w >>> (8 * i)) % 256

/-- SHA3 `pad10*1` padding with domain byte `0x06`, rate 136 bytes. -/
def sha3Pad (msg : List Nat) : List Nat :=
  let q := 136 - msg.length % 136
  if q = 1 then msg ++ [0x86]
  else msg ++ [0x06] ++ List.replicate (q - 2) 0 ++ [0x80]

/-- XOR one 136-byte block into the state and permute. -/
def absorbBlock (s block : List Nat) : List Nat :=
  let bl := (List.range 25).map fun i =>
    if i < 17 then bytesToLaneLE ((block.drop (8 * i)).take 8) else 0
  keccakF ((List.range 25).map fun i => s.getD i 0 ^^^ bl.getD i 0)

/-- Absorb a padded message (length a multiple of 136) block by block. -/
def sha3Absorb (s padded : List Nat) : List Nat :=
  (List.range (padded.length / 136)).foldl
    (fun st i => absorbBlock st ((padded.drop (136 * i)).take 136)) s

/-- SHA3-256 of a byte list: 32-byte digest. -/
def sha3_256 (msg : List Nat) : List Nat :=
  (((sha3Absorb (List.replicate 25 0) (sha3Pad msg)).take 4).map laneToBytesLE).flatten

/-- UTF-8 bytes of a string, as produced by JavaScript's `TextEncoder`. -/
def utf8Bytes (s : String) : List Nat :=
  ((s.data.map String.utf8EncodeChar).flatten).map UInt8.toNat

/-- Known-answer check: SHA3-256 of the empty message. -/
theorem sha3_256_nil_vector :
    bytesToNumberBE (sha3_256 []) =
      0xa7ffc6f8bf1ed76651c14756a061d662f580ff4de43b49fa82d80a4b80f8434a := by
  decide

/-- Known-answer check: SHA3-256 of `"abc"`. -/
theorem sha3_256_abc_vector :
    bytesToNumberBE (sha3_256 (utf8Bytes "abc")) =
      0x3a985da74fe225b2045c172d6bd390bd855f086e3e9d525b46bfe24511431532 := by
  decide

/-! ## NEAR MPC key derivation (`omni-key.ts`) -/

/-- `TWEAK_DERIVATION_PREFIX` constant of `omni-key.ts`. -/
def TWEAK_DERIVATION_PREFIX : String := "near-mpc-recovery v0.1.0 epsilon derivation:"

/-- `ACCOUNT_DATA_SEPARATOR` constant of `omni-key.ts`. -/
def ACCOUNT_DATA_SEPARATOR : String := ","

/-- The derivation string built at the top of every `derive` variant:
`` `${TWEAK_DERIVATION_PREFIX}${predecessorId}${ACCOUNT_DATA_SEPARATOR}${path}` ``. -/
def derivationString (predecessorId path : String) : String :=
  TWEAK_DERIVATION_PREFIX ++ predecessorId ++ ACCOUNT_DATA_SEPARATOR ++ path

/-- `bytesToNumberBE(sha3_256(new TextEncoder().encode(derivationPath)))`. -/
def derivationHash (predecessorId path : String) : Nat :=
  bytesToNumberBE (sha3_256 (utf8Bytes (derivationString predecessorId path)))

/-- `secp256k1.CURVE.Fp.create(x)`: reduction modulo the coordinate-field
prime `p`.  This operation never throws (the `try/catch` around it in the
source can never fire). -/
def fpCreate (x : Nat) : Nat := x % secpP

/-- The tweak ε that every `derive` variant in `omni-key.ts` computes from
the 32-byte hash: `epsilon = secp256k1.CURVE.Fp.create(bytesToNumberBE(hash))`. -/
def epsilonOfHash (h : Nat) : Nat := fpCreate h

/-- ε as a function of the derivation inputs. -/
def epsilonOf (predecessorId path : String) : Nat :=
  epsilonOfHash (derivationHash predecessorId path)

/-- Modelled from the spec: the reduction the specification prescribes for
the tweak — the 32-byte hash interpreted big-endian and reduced modulo the
curve's scalar-field order `n` (never modulo the coordinate-field prime).
Used only to compare against `epsilonOfHash`, which is what the code does. -/
def epsilonSpecOfHash (h : Nat) : Nat := h % secpN

/-- The subgroup of secp256k1 generated by the base point `G` is cyclic of
prime order `secpN` (the curve has cofactor 1), so for the algebraic claims
we represent a point of that subgroup by its discrete logarithm base `G`:
point addition is `+` and `k·G` is the image of `k`. -/
abbrev Pt := ZMod secpN

/-- `k · G` with no range check (the mathematical scalar multiple). -/
def baseMulRaw (k : Nat) : Pt := (k : Pt)

/-- `secp256k1.Point.BASE.multiply(k)`: noble-curves asserts
`1 ≤ k < CURVE.n` and throws otherwise; on success the result is `k·G`. -/
def baseMultiply (k : Nat) : Except String Pt :=
  if 1 ≤ k ∧ k < secpN then .ok (baseMulRaw k)
  else .error "invalid scalar: out of range [1, CURVE.n)"

/-- `OmniKey` (first variant of `omni-key.ts`): a public point optionally
paired with a secret scalar. -/
structure OmniKey where
  publicKey : Pt
  secretKey : Option Nat

/-- `OmniKey.fromSecretKey`: rejects scalars `≥ n`, then computes
`publicKey = secretKey × G` (which itself throws for scalar `0`). -/
def OmniKey.fromSecretKey (s : Nat) : Except String OmniKey :=
  if secpN ≤ s then .error "Secret key scalar must be less than curve order"
  else (baseMultiply s).map fun pk => ⟨pk, some s⟩

/-- `OmniKey.fromSecretBytes`: 32 bytes, big-endian, then `fromSecretKey`. -/
def OmniKey.fromSecretBytes (bs : List Nat) : Except String OmniKey :=
  if bs.length ≠ 32 then .error "Secret key must be exactly 32 bytes"
  else OmniKey.fromSecretKey (bytesToNumberBE bs)

/-- `OmniKey.fromPoint`: wrap a public point, no secret. -/
def OmniKey.fromPoint (pt : Pt) : OmniKey := ⟨pt, none⟩

/-- `OmniKey.derive` (first variant, lines 145–165 of `omni-key.ts`):
`ε = Fp.create(bytesToNumberBE(sha3_256(derivationPath)))`,
`childPublic = parentPublic + ε×G` (the `multiply` call throws for
`ε ∉ [1, n)`), and `childSecret = (ε + parentSecret) % n` when a secret is
present. -/
def OmniKey.derive (k : OmniKey) (predecessorId path : String) :
    Except String OmniKey :=
  (baseMultiply (epsilonOf predecessorId path)).map fun εG =>
    ⟨k.publicKey + εG,
     k.secretKey.map fun s => (epsilonOf predecessorId path + s) % secpN⟩

/-- `OmniSecretKey` (second variant of `omni-key.ts`): a bare scalar. -/
structure OmniSecretKey where
  scalar : Nat

/-- `OmniSecretKey.derive` (lines 515–533 of `omni-key.ts`): the child
scalar is computed as `secp256k1.CURVE.Fp.create(epsilon + this.scalar)`,
i.e. reduced modulo the coordinate-field prime `p`, not modulo `n`.  This
function never throws. -/
def OmniSecretKey.derive (k : OmniSecretKey) (predecessorId path : String) :
    OmniSecretKey :=
  ⟨fpCreate (epsilonOf predecessorId path + k.scalar)⟩

/-- noble-curves `mod(a, b)` for non-negative `a`: `((a % b) + b) % b`. -/
def nobleMod (a b : Nat) : Nat := (a % b + b) % b

/-- Child-secret computation of the third `OmniKey` variant (lines 751–754
of `omni-key.ts`): `mod(epsilon + this._secretKey, secp256k1.CURVE.n)`. -/
def omniKeyV3childSecret (ε s : Nat) : Nat := nobleMod (ε + s) secpN

/-- The cryptographic-consistency predicate of the spec: whenever the key
carries a secret scalar, `secret · G == publicKey`. -/
def OmniKey.consistent (k : OmniKey) : Prop :=
  match k.secretKey with
  | none => True
  | some s => baseMulRaw s = k.publicKey

/-! ## Claims C1 and C5: how the tweak and child secrets are reduced -/

/-- **C1** (refuted; code bug, evaluated at the failing input): the claim
states that the tweak ε equals the 32-byte hash reduced modulo the
scalar-field order `n` and that `ε < n` holds for every possible 32-byte
hash value.  The code instead reduces with `secp256k1.CURVE.Fp.create`,
i.e. modulo the coordinate-field prime `p`.  At the hash value `n` (a
possible 32-byte value since `n < 2^256 ≤` the range of 32 bytes, and
`n < p`), the computed ε is `n` itself: it differs from the prescribed
`hash mod n = 0` and violates `ε < n`. -/
theorem C1_epsilon_reduced_mod_p_not_mod_n :
    epsilonOfHash secpN = secpN ∧
    epsilonSpecOfHash secpN = 0 ∧
    ¬ epsilonOfHash secpN < secpN ∧
    secpN < secpP ∧ secpP < 2 ^ 256 := by
  decide

/-- ε for predecessor `"alice.near"`, path `"ethereum-1"` (the value of
`Fp.create(bytesToNumberBE(sha3_256("near-mpc-recovery v0.1.0 epsilon
derivation:alice.near,ethereum-1")))`, certified below by kernel
evaluation of the embedded SHA3-256). -/
def c5Epsilon : Nat :=
  103483875121797298676408609033421637749929118996628513889644736079650092817741

/-- A valid parent secret scalar chosen so that `ε + s = n` exactly. -/
def c5ParentScalar : Nat := secpN - c5Epsilon

/-- **C5** (refuted; code bug, evaluated at a concrete failing input):
`OmniKey.derive` (first variant) and the third variant do compute
`(ε + parent) mod n`, but `OmniSecretKey.derive` computes
`Fp.create(ε + parent)`, i.e. reduction modulo the coordinate-field prime
`p`, contradicting its own doc comment "child_secret = (epsilon +
parent_secret) mod n".  For predecessor `"alice.near"`, path
`"ethereum-1"` and the valid parent scalar `n − ε`, the derived child
scalar is exactly `n` — not less than `n`, and different from the value
`(ε + parent) mod n = 0` that the claim prescribes.  The last conjunct
records that the other two variants do satisfy the claim's formula and
bound. -/
theorem C5_child_secret_reduction :
    epsilonOf "alice.near" "ethereum-1" = c5Epsilon ∧
    c5ParentScalar < secpN ∧
    (OmniSecretKey.derive ⟨c5ParentScalar⟩ "alice.near" "ethereum-1").scalar = secpN ∧
    ¬ (OmniSecretKey.derive ⟨c5ParentScalar⟩ "alice.near" "ethereum-1").scalar < secpN ∧
    (c5Epsilon + c5ParentScalar) % secpN = 0 ∧
    (∀ ε s : Nat, (ε + s) % secpN < secpN ∧ omniKeyV3childSecret ε s = (ε + s) % secpN) := by
  refine ⟨by decide, by decide, by decide, by decide, by decide, fun ε s => ⟨?_, ?_⟩⟩
  · exact Nat.mod_lt _ (by decide)
  · unfold omniKeyV3childSecret nobleMod
    rw [Nat.add_mod_right]
    exact Nat.mod_mod_of_dvd _ dvd_rfl

/-! ## Claims C2 and C6: consistency of secret and public derivation -/

/-- If `fromSecretKey` succeeds, the produced key satisfies the
secret-times-G invariant. -/
theorem fromSecretKey_consistent (s : Nat) (k : OmniKey)
    (h : OmniKey.fromSecretKey s = .ok k) : k.consistent := by
  unfold OmniKey.fromSecretKey baseMultiply at h
  split at h
  · exact Except.noConfusion h
  · split at h
    · simp only [Except.map] at h
      injection h with h
      subst h
      simp [OmniKey.consistent]
    · exact Except.noConfusion h

/-- If `fromSecretBytes` succeeds, the produced key satisfies the
invariant (it funnels into `fromSecretKey`; `fromSecretHex` and `random`
in turn funnel into `fromSecretBytes`). -/
theorem fromSecretBytes_consistent (bs : List Nat) (k : OmniKey)
    (h : OmniKey.fromSecretBytes bs = .ok k) : k.consistent := by
  unfold OmniKey.fromSecretBytes at h
  split at h
  · exact Except.noConfusion h
  · exact fromSecretKey_consistent _ k h

/-- `derive` preserves the secret-times-G invariant. -/
theorem derive_consistent (k : OmniKey) (predecessorId path : String) (k' : OmniKey)
    (hk : k.consistent) (h : k.derive predecessorId path = .ok k') : k'.consistent := by
  unfold OmniKey.derive baseMultiply at h
  split at h
  · simp only [Except.map] at h
    injection h with h
    subst h
    cases hsec : k.secretKey with
    | none => simp [OmniKey.consistent, hsec]
    | some s =>
      have hks : baseMulRaw s = k.publicKey := by
        simpa [OmniKey.consistent, hsec] using hk
      simp only [OmniKey.consistent, hsec, Option.map]
      rw [← hks]
      unfold baseMulRaw
      rw [ZMod.natCast_mod, Nat.cast_add, add_comm]
  · exact Except.noConfusion h

/-- **C2** (confirmed): for every valid parent secret scalar and every
`(predecessorId, path)` whose tweak is a usable scalar (which every
successful `derive` requires), deriving from the secret-built key and
deriving from the key built from the public point `s·G` agree: both
succeed, and the derived secret times `G` equals the derived public
point. -/
theorem C2_secret_public_derive_consistency (s : Nat) (predecessorId path : String)
    (hs : 1 ≤ s ∧ s < secpN)
    (hε : 1 ≤ epsilonOf predecessorId path ∧ epsilonOf predecessorId path < secpN) :
    ∃ (kS kP : OmniKey) (σ : Nat),
      Except.bind (OmniKey.fromSecretKey s) (fun k => k.derive predecessorId path) = .ok kS ∧
      (OmniKey.fromPoint (baseMulRaw s)).derive predecessorId path = .ok kP ∧
      kS.secretKey = some σ ∧ baseMulRaw σ = kP.publicKey := by
  obtain ⟨hs1, hs2⟩ := hs
  refine ⟨⟨baseMulRaw s + baseMulRaw (epsilonOf predecessorId path),
           some ((epsilonOf predecessorId path + s) % secpN)⟩,
          ⟨baseMulRaw s + baseMulRaw (epsilonOf predecessorId path), none⟩,
          (epsilonOf predecessorId path + s) % secpN, ?_, ?_, rfl, ?_⟩
  · simp only [OmniKey.fromSecretKey, baseMultiply, OmniKey.derive,
      if_neg (not_le.mpr hs2), if_pos (And.intro hs1 hs2), if_pos hε,
      Except.map, Except.bind, Option.map]
  · simp only [OmniKey.fromPoint, OmniKey.derive, baseMultiply, if_pos hε,
      Except.map, Option.map]
  · unfold baseMulRaw
    rw [ZMod.natCast_mod, Nat.cast_add, add_comm]

/-- Witness for C2 at the concrete input `s = 1`, predecessor
`"alice.near"`, path `"ethereum-1"`. -/
theorem C2_secret_public_derive_consistency_witness :
    ∃ (kS kP : OmniKey) (σ : Nat),
      Except.bind (OmniKey.fromSecretKey 1) (fun k => k.derive "alice.near" "ethereum-1") = .ok kS ∧
      (OmniKey.fromPoint (baseMulRaw 1)).derive "alice.near" "ethereum-1" = .ok kP ∧
      kS.secretKey = some σ ∧ baseMulRaw σ = kP.publicKey :=
  C2_secret_public_derive_consistency 1 "alice.near" "ethereum-1"
    (by decide) (by decide)

/-- **C6** (confirmed): every constructor that yields a key carrying a
secret establishes `secret · G == publicKey`, and `derive` preserves it.
`fromSecretKey` covers construction from a scalar; `fromSecretBytes`
covers bytes (and thereby hex and random, which call into it). -/
theorem C6_secret_key_invariant :
    (∀ (s : Nat) (k : OmniKey), OmniKey.fromSecretKey s = .ok k → k.consistent) ∧
    (∀ (bs : List Nat) (k : OmniKey), OmniKey.fromSecretBytes bs = .ok k → k.consistent) ∧
    (∀ (k : OmniKey) (predecessorId path : String) (k' : OmniKey), k.consistent →
      k.derive predecessorId path = .ok k' → k'.consistent) :=
  ⟨fun s k h => fromSecretKey_consistent s k h,
   fun bs k h => fromSecretBytes_consistent bs k h,
   fun k pid path k' hk h => derive_consistent k pid path k' hk h⟩

/-- Witness for C6: the key built from the secret scalar `1` satisfies the
invariant. -/
theorem C6_secret_key_invariant_witness :
    OmniKey.consistent ⟨baseMulRaw 1, some 1⟩ :=
  C6_secret_key_invariant.1 1 ⟨baseMulRaw 1, some 1⟩ rfl

/-! ## Contract schemas and sign-request building
(`contract-types.ts`, `contract.ts`, and the second `Contract` variant) -/

/-- One hex digit, `[0-9a-fA-F]`. -/
def isHexDigit (c : Char) : Bool :=
  ('0' ≤ c && c ≤ '9') || ('a' ≤ c && c ≤ 'f') || ('A' ≤ c && c ≤ 'F')

/-- `hexString` schema: regex `^[0-9a-fA-F]+$` (hence non-empty) refined
to an even number of characters. -/
def hexStringValid (s : String) : Bool :=
  !s.data.isEmpty && s.data.all isHexDigit && s.length % 2 == 0

/-- `ECDSAHashSchema`: hex string of exactly 32 bytes (64 characters). -/
def ecdsaHashValid (s : String) : Bool :=
  hexStringValid s && s.length == 64

/-- `EDDSAMessageSchema`: hex string of 32–1232 bytes (64–2464 characters). -/
def eddsaMessageValid (s : String) : Bool :=
  hexStringValid s && decide (64 ≤ s.length) && decide (s.length ≤ 2464)

/-- A `payload_v2` value: `{ Ecdsa: hex }` or `{ Eddsa: hex }`. -/
inductive Payload where
  | Ecdsa (msg : String)
  | Eddsa (msg : String)
deriving DecidableEq

/-- `PayloadSchema`: union of the two branches. -/
def payloadValid : Payload → Bool
  | .Ecdsa m => ecdsaHashValid m
  | .Eddsa m => eddsaMessageValid m

/-- `PathSchema`: `z.string().min(1)` — any string of length at least 1. -/
def pathValid (s : String) : Bool := decide (1 ≤ s.length)

/-- The validated wire object `{ request: { domain_id, path, payload_v2 } }`. -/
structure SignRequest where
  domain_id : Nat
  path : String
  payload_v2 : Payload
deriving DecidableEq

/-- `SignRequestArgsSchema.parse`: an absent `domain_id` is filled by zod's
`.default(0)` (`DomainIdSchema` itself always holds for a `Nat`); the path
must satisfy `PathSchema` and the payload `PayloadSchema`.  `Contract.sign`
of `contract.ts` runs exactly this parse before its `functionCall`, so an
`.error` result means the transport is never invoked. -/
def signRequestParse (domainId : Option Nat) (path : String) (payload : Payload) :
    Except String SignRequest :=
  if !pathValid path then .error "path: String must contain at least 1 character(s)"
  else if !payloadValid payload then .error "payload_v2: invalid"
  else .ok ⟨domainId.getD 0, path, payload⟩

/-- `Contract.createECDSARequest(path, hash, domainId = 0)`. -/
def createECDSARequest (path hash : String) (domainId : Nat := 0) :
    Except String SignRequest :=
  signRequestParse (some domainId) path (.Ecdsa hash)

/-- `Contract.createEDDSARequest(path, message, domainId = 0)`. -/
def createEDDSARequest (path message : String) (domainId : Nat := 0) :
    Except String SignRequest :=
  signRequestParse (some domainId) path (.Eddsa message)

/-- The `signatureType` argument of the second `Contract.sign` variant. -/
inductive SigType where
  | ecdsa
  | eddsa
deriving DecidableEq

/-- A string is all-whitespace (so JavaScript `s.trim().length === 0`).
The characters listed are the whitespace set JavaScript trims; the claims
only ever involve ASCII whitespace. -/
def jsTrimEmpty (s : String) : Bool :=
  s.data.all fun c =>
    c == ' ' || c == '\t' || c == '\n' || c == '\r' ||
    c.toNat == 0x0B || c.toNat == 0x0C || c.toNat == 0xA0 ||
    c.toNat == 0x2028 || c.toNat == 0x2029 || c.toNat == 0xFEFF

/-- `domainId ?? (signatureType === "ecdsa" ? 0 : 1)` — the scheme-based
default of the second `Contract.sign` variant. -/
def autoDomainId (signatureType : SigType) (domainId : Option Nat) : Nat :=
  domainId.getD (match signatureType with | .ecdsa => 0 | .eddsa => 1)

/-- `Contract.sign(path, message, signatureType = "ecdsa", domainId?)` of
the second `Contract` variant (`part_004`), up to the point where the
request object is handed to `account.functionCall`: returns the request
that would be submitted, or the validation error thrown before any
submission is attempted. -/
def contractSignV2 (path message : String) (signatureType : SigType)
    (domainId : Option Nat) : Except String SignRequest :=
  if path == "" || jsTrimEmpty path then
    .error "Path is required and cannot be empty"
  else if message == "" || jsTrimEmpty message then
    .error "Message is required and cannot be empty"
  else if signatureType == .ecdsa then
    if ecdsaHashValid message then
      .ok ⟨autoDomainId signatureType domainId, path, .Ecdsa message⟩
    else .error "ECDSAHashSchema: invalid"
  else
    if eddsaMessageValid message then
      .ok ⟨autoDomainId signatureType domainId, path, .Eddsa message⟩
    else .error "EDDSAMessageSchema: invalid"

/-- A 32-byte hex fixture (the test hash used throughout the repo's
tests). -/
def sampleHash32 : String :=
  "a0b1c2d3e4f5061728394a5b6c7d8e9f0a1b2c3d4e5f6071829304a5b6c7d8e9"

/-- A string of `k` hex characters. -/
def hexChars (k : Nat) : String := String.mk (List.replicate k 'a')

/-- Dissection of a successful `SignRequestArgsSchema` parse: the request
is the input with the defaulted `domain_id`, and both validators held. -/
theorem signRequestParse_ok (d : Option Nat) (path : String) (payload : Payload)
    (r : SignRequest) (h : signRequestParse d path payload = .ok r) :
    r = ⟨d.getD 0, path, payload⟩ ∧ pathValid path = true ∧ payloadValid payload = true := by
  unfold signRequestParse at h
  split at h
  · exact Except.noConfusion h
  · split at h
    · exact Except.noConfusion h
    · injection h with h
      refine ⟨h.symm, ?_, ?_⟩
      all_goals simp_all

/-- Converse: valid inputs parse successfully. -/
theorem signRequestParse_ok_of_valid (d : Option Nat) (path : String) (payload : Payload)
    (hp : pathValid path = true) (hpl : payloadValid payload = true) :
    signRequestParse d path payload = .ok ⟨d.getD 0, path, payload⟩ := by
  unfold signRequestParse
  simp [hp, hpl]

/-- Any request the second `Contract.sign` variant actually submits has
the scheme-defaulted `domain_id`. -/
theorem signV2_ok_domain (path message : String) (t : SigType) (d : Option Nat)
    (r : SignRequest) (h : contractSignV2 path message t d = .ok r) :
    r.domain_id = autoDomainId t d := by
  unfold contractSignV2 at h
  split at h
  · exact Except.noConfusion h
  · split at h
    · exact Except.noConfusion h
    · split at h
      · split at h
        · injection h with h; subst h; rfl
        · exact Except.noConfusion h
      · split at h
        · injection h with h; subst h; rfl
        · exact Except.noConfusion h

/-! ## Claim C3: default `domain_id` when the caller omits it -/

/-- **C3 counterexample** (closed): an EdDSA request built with the
`domainId` argument omitted — both through `createEDDSARequest` and
through a schema parse with `domain_id` absent — is submitted with
`domain_id = 0`, not the claimed scheme default `1`. -/
theorem C3_eddsa_default_counterexample :
    createEDDSARequest "solana-1" sampleHash32 =
      .ok ⟨0, "solana-1", .Eddsa sampleHash32⟩ ∧
    signRequestParse none "solana-1" (.Eddsa sampleHash32) =
      .ok ⟨0, "solana-1", .Eddsa sampleHash32⟩ ∧
    (0 : Nat) ≠ 1 :=
  ⟨rfl, rfl, by decide⟩

/-- **C3 amended** (proved): only the second `Contract.sign` variant fills
an omitted `domainId` by the scheme convention (0 for ECDSA, 1 for EdDSA);
the `SignRequestArgsSchema` parse and the `createEDDSARequest` helper
default an absent `domain_id` to `0` regardless of scheme. -/
theorem C3_domain_id_defaults :
    (∀ (path message : String) (r : SignRequest),
      contractSignV2 path message .ecdsa none = .ok r → r.domain_id = 0) ∧
    (∀ (path message : String) (r : SignRequest),
      contractSignV2 path message .eddsa none = .ok r → r.domain_id = 1) ∧
    (∀ (path : String) (payload : Payload) (r : SignRequest),
      signRequestParse none path payload = .ok r → r.domain_id = 0) ∧
    (∀ (path message : String) (r : SignRequest),
      createEDDSARequest path message = .ok r → r.domain_id = 0) := by
  refine ⟨?_, ?_, ?_, ?_⟩
  · intro path message r h
    rw [signV2_ok_domain path message .ecdsa none r h]; rfl
  · intro path message r h
    rw [signV2_ok_domain path message .eddsa none r h]; rfl
  · intro path payload r h
    rw [(signRequestParse_ok none path payload r h).1]; rfl
  · intro path message r h
    rw [(signRequestParse_ok (some 0) path (.Eddsa message) r h).1]; rfl

/-- Witness for C3 at concrete inputs: the EdDSA branch of the second
`sign` variant defaults to domain 1. -/
theorem C3_domain_id_defaults_witness :
    (⟨1, "solana-1", Payload.Eddsa sampleHash32⟩ : SignRequest).domain_id = 1 :=
  C3_domain_id_defaults.2.1 "solana-1" sampleHash32
    ⟨1, "solana-1", .Eddsa sampleHash32⟩ rfl

/-! ## Claim C4: empty and whitespace-only paths -/

/-- **C4 counterexample** (closed): a whitespace-only path (a single
space) together with a valid ECDSA payload passes the
`SignRequestArgsSchema` validation of `Contract.sign` in `contract.ts`
(`PathSchema` is only `min(1)`), so the request would be submitted. -/
theorem C4_whitespace_path_counterexample :
    signRequestParse none " " (.Ecdsa sampleHash32) =
      .ok ⟨0, " ", .Ecdsa sampleHash32⟩ ∧
    jsTrimEmpty " " = true :=
  ⟨rfl, rfl⟩

/-- **C4 amended** (proved): the second `Contract.sign` variant rejects
empty and whitespace-only paths before submission; the schema-based
`Contract.sign` rejects empty paths before submission, but a
whitespace-only path passes its validation and is submitted. -/
theorem C4_path_validation :
    (∀ (path message : String) (t : SigType) (d : Option Nat),
      jsTrimEmpty path = true →
      contractSignV2 path message t d = .error "Path is required and cannot be empty") ∧
    (∀ (d : Option Nat) (payload : Payload),
      signRequestParse d "" payload =
        .error "path: String must contain at least 1 character(s)") ∧
    signRequestParse none " " (.Ecdsa sampleHash32) = .ok ⟨0, " ", .Ecdsa sampleHash32⟩ := by
  refine ⟨?_, fun d payload => rfl, rfl⟩
  intro path message t d h
  unfold contractSignV2
  rw [if_pos]
  simp [h]

/-- Witness for C4 at a concrete whitespace-only input. -/
theorem C4_path_validation_witness :
    contractSignV2 " " sampleHash32 .ecdsa none =
      .error "Path is required and cannot be empty" :=
  C4_path_validation.1 " " sampleHash32 .ecdsa none rfl

/-! ## Claim C7: message-length validation boundaries -/

/-- The byte length a string denotes when it is valid hex (non-empty,
all hex digits, even character count), `none` otherwise. -/
def hexByteLength? (s : String) : Option Nat :=
  if hexStringValid s then some (s.length / 2) else none

/-- A valid hex string has an even number of characters. -/
theorem hexStringValid_even (s : String) (h : hexStringValid s = true) :
    s.length % 2 = 0 := by
  unfold hexStringValid at h
  simp only [Bool.and_eq_true, beq_iff_eq] at h
  exact h.2

/-- The `ECDSAHashSchema` accepts exactly the strings denoting 32 bytes of
hex. -/
theorem ecdsaHashValid_iff (m : String) :
    ecdsaHashValid m = true ↔ hexByteLength? m = some 32 := by
  unfold ecdsaHashValid hexByteLength?
  constructor
  · intro h
    simp only [Bool.and_eq_true, beq_iff_eq] at h
    rw [if_pos h.1, h.2]
  · intro h
    split at h
    · rename_i hv
      injection h with h
      have heven := hexStringValid_even m hv
      have h64 : m.length = 64 := by omega
      simp [hv, h64]
    · exact Option.noConfusion h

/-- The `EDDSAMessageSchema` accepts exactly the strings denoting between
32 and 1232 bytes of hex (inclusive). -/
theorem eddsaMessageValid_iff (m : String) :
    eddsaMessageValid m = true ↔
      ∃ b, hexByteLength? m = some b ∧ 32 ≤ b ∧ b ≤ 1232 := by
  unfold eddsaMessageValid hexByteLength?
  constructor
  · intro h
    simp only [Bool.and_eq_true, decide_eq_true_eq] at h
    obtain ⟨⟨hv, h64⟩, h2464⟩ := h
    exact ⟨m.length / 2, by rw [if_pos hv], by omega, by omega⟩
  · rintro ⟨b, hb, h32, h1232⟩
    split at hb
    · rename_i hv
      injection hb with hb
      have heven := hexStringValid_even m hv
      simp only [Bool.and_eq_true, decide_eq_true_eq]
      exact ⟨⟨hv, by omega⟩, by omega⟩
    · exact Option.noConfusion hb

/-- With a valid path, a schema parse succeeds exactly when the payload
validator accepts the message. -/
theorem signRequestParse_ok_iff (d : Option Nat) (p : String) (payload : Payload)
    (hp : pathValid p = true) :
    (∃ r, signRequestParse d p payload = .ok r) ↔ payloadValid payload = true := by
  constructor
  · rintro ⟨r, hr⟩
    exact (signRequestParse_ok d p payload r hr).2.2
  · intro h
    exact ⟨_, signRequestParse_ok_of_valid d p payload hp h⟩

/-- `hexChars k` is a valid hex string whenever `k` is even and nonzero. -/
theorem hexCharsValid (k : Nat) (h0 : k ≠ 0) (h2 : k % 2 = 0) :
    hexStringValid (hexChars k) = true := by
  unfold hexStringValid hexChars
  simp only [Bool.and_eq_true, Bool.not_eq_true', beq_iff_eq, List.all_eq_true]
  refine ⟨⟨?_, ?_⟩, ?_⟩
  · simp [List.isEmpty_iff, h0]
  · intro c hc
    have := List.eq_of_mem_replicate hc
    subst this
    decide
  · simpa [String.length] using h2

/-- The hex byte length of `hexChars k`. -/
theorem hexByteLength_hexChars (k : Nat) (h0 : k ≠ 0) (h2 : k % 2 = 0) :
    hexByteLength? (hexChars k) = some (k / 2) := by
  unfold hexByteLength?
  rw [if_pos (hexCharsValid k h0 h2)]
  simp [hexChars, String.length]

/-- **C7** (confirmed): against the validation that `Contract.sign` runs
before any submission, an ECDSA request is accepted iff its message is
exactly 32 bytes of valid hex, and an EdDSA request iff its message is
valid hex of 32–1232 bytes inclusive; evaluated at the boundaries (with
byte length `k/2` for `k` hex characters): ECDSA 31- and 33-byte messages
are rejected and 32 bytes accepted; EdDSA 31 bytes rejected, 32 and 1232
accepted, 1233 rejected.  A rejection means the parse returns a validation
error instead of a request, so nothing reaches the transport. -/
theorem C7_message_length_boundaries :
    (∀ (d : Option Nat) (p m : String), pathValid p = true →
      ((∃ r, signRequestParse d p (.Ecdsa m) = .ok r) ↔ hexByteLength? m = some 32)) ∧
    (∀ (d : Option Nat) (p m : String), pathValid p = true →
      ((∃ r, signRequestParse d p (.Eddsa m) = .ok r) ↔
        ∃ b, hexByteLength? m = some b ∧ 32 ≤ b ∧ b ≤ 1232)) ∧
    ¬ (∃ r, signRequestParse none "p" (.Ecdsa (hexChars 62)) = .ok r) ∧
    (∃ r, signRequestParse none "p" (.Ecdsa (hexChars 64)) = .ok r) ∧
    ¬ (∃ r, signRequestParse none "p" (.Ecdsa (hexChars 66)) = .ok r) ∧
    ¬ (∃ r, signRequestParse none "p" (.Eddsa (hexChars 62)) = .ok r) ∧
    (∃ r, signRequestParse none "p" (.Eddsa (hexChars 64)) = .ok r) ∧
    (∃ r, signRequestParse none "p" (.Eddsa (hexChars 2464)) = .ok r) ∧
    ¬ (∃ r, signRequestParse none "p" (.Eddsa (hexChars 2466)) = .ok r) := by
  have hiffE : ∀ (d : Option Nat) (p m : String), pathValid p = true →
      ((∃ r, signRequestParse d p (.Ecdsa m) = .ok r) ↔ hexByteLength? m = some 32) := by
    intro d p m hp
    rw [signRequestParse_ok_iff d p (.Ecdsa m) hp]
    exact ecdsaHashValid_iff m
  have hiffD : ∀ (d : Option Nat) (p m : String), pathValid p = true →
      ((∃ r, signRequestParse d p (.Eddsa m) = .ok r) ↔
        ∃ b, hexByteLength? m = some b ∧ 32 ≤ b ∧ b ≤ 1232) := by
    intro d p m hp
    rw [signRequestParse_ok_iff d p (.Eddsa m) hp]
    exact eddsaMessageValid_iff m
  have hpv : pathValid "p" = true := rfl
  refine ⟨hiffE, hiffD, ?_, ?_, ?_, ?_, ?_, ?_, ?_⟩
  · rw [hiffE none "p" _ hpv, hexByteLength_hexChars 62 (by omega) (by omega)]
    decide
  · rw [hiffE none "p" _ hpv, hexByteLength_hexChars 64 (by omega) (by omega)]
  · rw [hiffE none "p" _ hpv, hexByteLength_hexChars 66 (by omega) (by omega)]
    decide
  · rw [hiffD none "p" _ hpv]
    rintro ⟨b, hb, h32, h1232⟩
    rw [hexByteLength_hexChars 62 (by omega) (by omega)] at hb
    injection hb with hb
    omega
  · rw [hiffD none "p" _ hpv]
    exact ⟨32, hexByteLength_hexChars 64 (by omega) (by omega), by omega, by omega⟩
  · rw [hiffD none "p" _ hpv]
    exact ⟨1232, hexByteLength_hexChars 2464 (by omega) (by omega), by omega, by omega⟩
  · rw [hiffD none "p" _ hpv]
    rintro ⟨b, hb, h32, h1232⟩
    rw [hexByteLength_hexChars 2466 (by omega) (by omega)] at hb
    injection hb with hb
    omega

/-- Witness for C7 at the concrete 32-byte fixture. -/
theorem C7_message_length_boundaries_witness :
    (∃ r, signRequestParse none "p" (.Ecdsa sampleHash32) = .ok r) ↔
      hexByteLength? sampleHash32 = some 32 :=
  C7_message_length_boundaries.1 none "p" sampleHash32 rfl

/-! ## Claim C8: Secp256k1 wire response → native ECDSA signature -/

/-- Numeric value of a hex digit (as `Number.parseInt(·, 16)` would give
for a single valid digit). -/
def hexDigitVal (c : Char) : Nat :=
  if '0' ≤ c && c ≤ '9' then c.toNat - '0'.toNat
  else if 'a' ≤ c && c ≤ 'f' then c.toNat - 'a'.toNat + 10
  else if 'A' ≤ c && c ≤ 'F' then c.toNat - 'A'.toNat + 10
  else 0

/-- `hexToBytes` of noble-curves on valid (even-length) hex: consecutive
digit pairs become bytes. -/
def hexToBytesL : List Char → List Nat
  | c1 :: c2 :: rest => (hexDigitVal c1 * 16 + hexDigitVal c2) :: hexToBytesL rest
  | _ => []

/-- A hex character sequence interpreted directly as a big-endian
integer (the spec-level reading bytes are compared against). -/
def hexNat (l : List Char) : Nat :=
  l.foldl (fun acc c => acc * 16 + hexDigitVal c) 0

/-- A `Secp256k1` wire signature response
(`MPCECDSASignatureResponseSchema`). -/
structure MPCECDSAResponse where
  affine_point : String
  scalar : String
  recovery_id : Nat

/-- `MPCECDSASignatureResponseSchema` validation: both fields are valid
hex and `recovery_id` lies in `[0, 3]`. -/
def mpcEcdsaResponseValid (resp : MPCECDSAResponse) : Bool :=
  hexStringValid resp.affine_point && hexStringValid resp.scalar &&
    decide (resp.recovery_id ≤ 3)

/-- The native signature object `new secp256k1.Signature(r, s, recovery)`. -/
structure ECDSASignature where
  r : Nat
  s : Nat
  recovery : Nat
deriving DecidableEq

/-- `Contract.convertMPCToECDSASignature` (and the identical inline code
of the second `Contract.sign` variant):
`r = bytesToNumberBE(hexToBytes(big_r.affine_point.slice(2)))` — the
first byte (two hex characters) is the discarded compression tag —
`s = bytesToNumberBE(hexToBytes(s.scalar))`, and the recovery id is
passed through to the signature unchanged. -/
def convertMPCToECDSASignature (resp : MPCECDSAResponse) : ECDSASignature :=
  ⟨bytesToNumberBE (hexToBytesL (resp.affine_point.data.drop 2)),
   bytesToNumberBE (hexToBytesL resp.scalar.data),
   resp.recovery_id⟩

/-- Accumulator form of the base-256 fold. -/
theorem foldl256_acc (bs : List Nat) (a : Nat) :
    bs.foldl (fun acc b => acc * 256 + b) a =
      a * 256 ^ bs.length + bs.foldl (fun acc b => acc * 256 + b) 0 := by
  induction bs generalizing a with
  | nil => simp
  | cons b bs ih =>
    simp only [List.foldl_cons, List.length_cons]
    rw [ih (a * 256 + b), ih (0 * 256 + b)]
    ring

/-- Accumulator form of the base-16 fold over hex characters. -/
theorem foldl16_acc (l : List Char) (a : Nat) :
    l.foldl (fun acc c => acc * 16 + hexDigitVal c) a =
      a * 16 ^ l.length + l.foldl (fun acc c => acc * 16 + hexDigitVal c) 0 := by
  induction l generalizing a with
  | nil => simp
  | cons c l ih =>
    simp only [List.foldl_cons, List.length_cons]
    rw [ih (a * 16 + hexDigitVal c), ih (0 * 16 + hexDigitVal c)]
    ring

/-- `hexToBytesL` halves the length. -/
theorem hexToBytesL_length : ∀ l : List Char, (hexToBytesL l).length = l.length / 2
  | [] => rfl
  | [c] => by norm_num [hexToBytesL]
  | _ :: _ :: rest => by
    simp only [hexToBytesL, List.length_cons]
    rw [hexToBytesL_length rest]
    omega

/-- On even-length hex, the byte-mediated big-endian value equals the
direct base-16 reading of the characters. -/
theorem beNat_hexToBytesL : ∀ l : List Char, l.length % 2 = 0 →
    bytesToNumberBE (hexToBytesL l) = hexNat l
  | [], _ => rfl
  | [_], h => by simp at h
  | c1 :: c2 :: rest, h => by
    have he : rest.length % 2 = 0 := by
      simp only [List.length_cons] at h
      omega
    have ih := beNat_hexToBytesL rest he
    unfold bytesToNumberBE hexNat at ih ⊢
    simp only [hexToBytesL, List.foldl_cons]
    rw [foldl256_acc (hexToBytesL rest), foldl16_acc rest, ih,
      hexToBytesL_length rest]
    have hp : (256 : Nat) ^ (rest.length / 2) = 16 ^ rest.length := by
      have h2 : 2 * (rest.length / 2) = rest.length := by omega
      calc (256 : Nat) ^ (rest.length / 2) = (16 ^ 2) ^ (rest.length / 2) := by norm_num
        _ = 16 ^ (2 * (rest.length / 2)) := by rw [← pow_mul]
        _ = 16 ^ rest.length := by rw [h2]
    rw [hp]
    ring

/-- **C8** (confirmed): for every schema-valid `Secp256k1` response, the
converted signature's `r` is the big-endian integer denoted by the
compressed-point hex with its first byte (the two-character compression
tag) discarded, `s` is the big-endian integer of the scalar hex, and the
recovery id (which the schema constrains to `[0, 3]`) is carried through
unchanged. -/
theorem C8_secp256k1_response_conversion :
    ∀ resp : MPCECDSAResponse, mpcEcdsaResponseValid resp = true →
      (convertMPCToECDSASignature resp).r = hexNat (resp.affine_point.data.drop 2) ∧
      (convertMPCToECDSASignature resp).s = hexNat resp.scalar.data ∧
      (convertMPCToECDSASignature resp).recovery = resp.recovery_id ∧
      resp.recovery_id ≤ 3 := by
  intro resp h
  unfold mpcEcdsaResponseValid at h
  simp only [Bool.and_eq_true, decide_eq_true_eq] at h
  obtain ⟨⟨ha, hs⟩, hr⟩ := h
  have haE : resp.affine_point.data.length % 2 = 0 := hexStringValid_even _ ha
  have hsE : resp.scalar.data.length % 2 = 0 := hexStringValid_even _ hs
  refine ⟨?_, ?_, rfl, hr⟩
  · refine beNat_hexToBytesL _ ?_
    rw [List.length_drop]
    omega
  · exact beNat_hexToBytesL _ hsE

/-- Witness for C8 at a concrete wire fixture (tag byte `02`, the 32-byte
x-coordinate fixture, recovery id 1). -/
theorem C8_secp256k1_response_conversion_witness :
    (convertMPCToECDSASignature ⟨"02" ++ sampleHash32, sampleHash32, 1⟩).r =
      hexNat (("02" ++ sampleHash32).data.drop 2) ∧
    (convertMPCToECDSASignature ⟨"02" ++ sampleHash32, sampleHash32, 1⟩).s =
      hexNat sampleHash32.data ∧
    (convertMPCToECDSASignature ⟨"02" ++ sampleHash32, sampleHash32, 1⟩).recovery = 1 ∧
    (1 : Nat) ≤ 3 :=
  C8_secp256k1_response_conversion ⟨"02" ++ sampleHash32, sampleHash32, 1⟩ (by decide)

/-! ## Claim C10: `derived_public_key` view-call arguments -/

/-- The argument object sent by `Contract.getDerivedPublicKey` — the
record always carries a `domain_id` field (there is no field-omitting
variant of this type, mirroring that the code always includes the key). -/
structure DerivedPublicKeyArgs where
  predecessor : String
  path : String
  domain_id : Nat
deriving DecidableEq

/-- `Contract.getDerivedPublicKey(predecessor, path, domainId = 0)` (both
`Contract` variants build the same args object): the JS default parameter
fills an omitted `domainId` with `0`, and the args always spell out
`domain_id`. -/
def getDerivedPublicKeyArgs (predecessor path : String) (domainId : Option Nat) :
    DerivedPublicKeyArgs :=
  ⟨predecessor, path, domainId.getD 0⟩

/-- **C10** (confirmed): the `derived_public_key` view call always sends a
`domain_id` field; with the argument omitted the value sent is `0`, and
with it supplied the value is passed through — the call never leaves the
field out to defer to the contract's latest key version. -/
theorem C10_derived_public_key_domain_id :
    (∀ p q : String, getDerivedPublicKeyArgs p q none = ⟨p, q, 0⟩) ∧
    (∀ (p q : String) (d : Nat), getDerivedPublicKeyArgs p q (some d) = ⟨p, q, d⟩) :=
  ⟨fun _ _ => rfl, fun _ _ _ => rfl⟩

/-! ## Claim C9: NEAR wire key format round trip (`omni-key.ts`) -/

/-- The base58 alphabet used by `@scure/base`. -/
def b58Alphabet : List Char :=
  "123456789ABCDEFGHJKLMNPQRSTUVWXYZabcdefghijkmnopqrstuvwxyz".data

/-- Character for a base58 digit. -/
def b58Char (d : Nat) : Char := b58Alphabet.getD d '1'

/-- Digit value of a base58 character. -/
def b58Val (c : Char) : Nat := b58Alphabet.findIdx (fun x => x == c)

/-- Membership in the base58 alphabet (decode throws otherwise). -/
def isB58Char (c : Char) : Bool := b58Alphabet.contains c

/-- `base58.encode` of `@scure/base`: each leading zero byte becomes a
leading `'1'` character, followed by the base-58 digit expansion (most
significant digit first) of the big-endian value; `Nat.digits 58` is the
little-endian digit list the library's repeated divmod produces. -/
def base58encodeChars (bs : List Nat) : List Char :=
  (bs.takeWhile (fun b => b == 0)).map (fun _ => '1') ++
    ((Nat.digits 58 (bytesToNumberBE bs)).reverse.map b58Char)

/-- `base58.decode`: `none` models the throw on a character outside the
alphabet; otherwise leading `'1'`s become zero bytes and the positional
value is written in minimal big-endian bytes. -/
def base58decodeChars (cs : List Char) : Option (List Nat) :=
  if cs.all isB58Char then
    some ((cs.takeWhile (fun c => c == '1')).map (fun _ => 0) ++
      (Nat.digits 256 (cs.foldl (fun acc c => acc * 58 + b58Val c) 0)).reverse)
  else none

/-! generic fold lemmas -/

/-- Accumulator form of a base-`B` positional left fold. -/
theorem foldlBE_acc (B : Nat) (l : List Nat) (a : Nat) :
    l.foldl (fun acc d => acc * B + d) a =
      a * B ^ l.length + l.foldl (fun acc d => acc * B + d) 0 := by
  induction l generalizing a with
  | nil => simp
  | cons d l ih =>
    simp only [List.foldl_cons, List.length_cons]
    rw [ih (a * B + d), ih (0 * B + d)]
    ring

/-- A big-endian positional fold is `Nat.ofDigits` of the reverse. -/
theorem foldlBE_eq_ofDigits (B : Nat) (l : List Nat) :
    l.foldl (fun acc d => acc * B + d) 0 = Nat.ofDigits B l.reverse := by
  induction l with
  | nil => rfl
  | cons d l ih =>
    simp only [List.foldl_cons, List.reverse_cons]
    rw [foldlBE_acc B l (0 * B + d), ih, Nat.ofDigits_append]
    simp [Nat.ofDigits_singleton, List.length_reverse]
    ring

/-- `bytesToNumberBE` through `Nat.ofDigits`. -/
theorem beNat_eq_ofDigits (bs : List Nat) :
    bytesToNumberBE bs = Nat.ofDigits 256 bs.reverse :=
  foldlBE_eq_ofDigits 256 bs

/-- Zero digits contribute nothing to a positional fold from zero. -/
theorem foldl_zeros (B : Nat) (z : List Nat) (hz : ∀ b ∈ z, b = 0) :
    z.foldl (fun acc d => acc * B + d) 0 = 0 := by
  induction z with
  | nil => rfl
  | cons b z ih =>
    have hb : b = 0 := hz b (List.mem_cons_self _ _)
    have : (0 * B + b) = 0 := by omega
    simp only [List.foldl_cons, this]
    exact ih (fun x hx => hz x (List.mem_cons_of_mem _ hx))

/-- Leading zero bytes do not change the big-endian value. -/
theorem beNat_append_zeros (z rest : List Nat) (hz : ∀ b ∈ z, b = 0) :
    bytesToNumberBE (z ++ rest) = bytesToNumberBE rest := by
  unfold bytesToNumberBE
  rw [List.foldl_append, foldl_zeros 256 z hz]

/-! numberToBytesBE lemmas -/

/-- `numberToBytesBE` produces exactly `len` bytes. -/
theorem numberToBytesBE_length (v len : Nat) : (numberToBytesBE v len).length = len := by
  induction len generalizing v with
  | zero => rfl
  | succ len ih =>
    simp only [numberToBytesBE, List.length_append, List.length_cons, List.length_nil, ih]

/-- `numberToBytesBE` produces bytes. -/
theorem numberToBytesBE_lt (v len : Nat) : ∀ b ∈ numberToBytesBE v len, b < 256 := by
  induction len generalizing v with
  | zero => intro b hb; exact absurd hb (List.not_mem_nil b)
  | succ len ih =>
    intro b hb
    simp only [numberToBytesBE, List.mem_append, List.mem_singleton] at hb
    rcases hb with hb | hb
    · exact ih (v / 256) b hb
    · subst hb; exact Nat.mod_lt _ (by omega)

/-- Fixed-width big-endian encode/decode round trip. -/
theorem beNat_numberToBytesBE (v len : Nat) (h : v < 256 ^ len) :
    bytesToNumberBE (numberToBytesBE v len) = v := by
  induction len generalizing v with
  | zero =>
    simp only [Nat.pow_zero, Nat.lt_one_iff] at h
    simpa [numberToBytesBE, bytesToNumberBE] using h.symm
  | succ len ih =>
    have hdiv : v / 256 < 256 ^ len := by
      rw [Nat.div_lt_iff_lt_mul (by omega)]
      calc v < 256 ^ (len + 1) := h
        _ = 256 ^ len * 256 := by ring
    unfold numberToBytesBE bytesToNumberBE
    rw [List.foldl_append]
    have := ih (v / 256) hdiv
    unfold bytesToNumberBE at this
    rw [this]
    simp only [List.foldl_cons, List.foldl_nil]
    omega

/-! char facts -/

/-- Alphabet facts for every base58 digit: its character is in the
alphabet, converts back to the digit, and is `'1'` exactly for digit 0. -/
theorem b58_char_facts :
    ∀ d, d < 58 → isB58Char (b58Char d) = true ∧ b58Val (b58Char d) = d ∧
      (b58Char d = '1' ↔ d = 0) := by decide

/-- `takeWhile` runs through a prefix on which the predicate holds. -/
theorem takeWhile_append_all {α : Type} (p : α → Bool) (l1 l2 : List α)
    (h : ∀ x ∈ l1, p x = true) :
    (l1 ++ l2).takeWhile p = l1 ++ l2.takeWhile p := by
  induction l1 with
  | nil => rfl
  | cons a l ih =>
    have ha : p a = true := h a (List.mem_cons_self _ _)
    simp only [List.cons_append, List.takeWhile_cons_of_pos ha]
    rw [ih fun x hx => h x (List.mem_cons_of_mem _ hx)]

/-- Characters of value zero contribute nothing to the base58 value. -/
theorem foldl58_zeros (cs : List Char) (h : ∀ c ∈ cs, b58Val c = 0) :
    cs.foldl (fun acc c => acc * 58 + b58Val c) 0 = 0 := by
  induction cs with
  | nil => rfl
  | cons c cs ih =>
    have hc := h c (List.mem_cons_self _ _)
    simp only [List.foldl_cons, hc]
    exact ih fun x hx => h x (List.mem_cons_of_mem _ hx)

/-- The first byte after the zero-run is nonzero. -/
theorem dropWhile_head_ne_zero {bs : List Nat} {r : Nat} {t : List Nat}
    (h : bs.dropWhile (fun b => b == 0) = r :: t) : r ≠ 0 := by
  have hw : bs.dropWhile (fun b => b == 0) ≠ [] := by
    rw [h]; exact List.cons_ne_nil _ _
  have hh := List.head_dropWhile_not (fun b => b == 0) bs hw
  simp only [h, List.head_cons] at hh
  simpa using hh

/-- A byte list with a nonzero head has a nonzero value. -/
theorem beNat_pos_of_head_ne_zero (r : Nat) (t : List Nat) (hr : r ≠ 0) :
    bytesToNumberBE (r :: t) ≠ 0 := by
  unfold bytesToNumberBE
  simp only [List.foldl_cons]
  rw [foldlBE_acc 256 t (0 * 256 + r)]
  intro hcontra
  have h0 : (0 * 256 + r) * 256 ^ t.length = 0 := Nat.eq_zero_of_add_eq_zero_right hcontra
  have hP : 0 < 256 ^ t.length := Nat.pos_pow_of_pos _ (by omega)
  rcases Nat.mul_eq_zero.mp h0 with h1 | h2
  · omega
  · omega

/-- The base58 round trip: decoding an encoding recovers the bytes. -/
theorem base58_roundtrip (bs : List Nat) (hb : ∀ b ∈ bs, b < 256) :
    base58decodeChars (base58encodeChars bs) = some bs := by
  have hsplit : bs.takeWhile (fun b => b == 0) ++ bs.dropWhile (fun b => b == 0) = bs :=
    List.takeWhile_append_dropWhile _ _
  have hz0 : ∀ b ∈ bs.takeWhile (fun b => b == 0), b = 0 := by
    intro b hbz
    simpa using List.mem_takeWhile_imp hbz
  have hrest_lt : ∀ b ∈ bs.dropWhile (fun b => b == 0), b < 256 := by
    intro b hbr
    exact hb b ((List.dropWhile_sublist _).subset hbr)
  have hn : bytesToNumberBE bs = bytesToNumberBE (bs.dropWhile (fun b => b == 0)) := by
    conv_lhs => rw [← hsplit]
    exact beNat_append_zeros _ _ hz0
  have hdig_lt : ∀ d ∈ Nat.digits 58 (bytesToNumberBE bs), d < 58 :=
    fun d hd => Nat.digits_lt_base (by norm_num) hd
  -- all characters of the encoding are in the alphabet
  have hvalid : (base58encodeChars bs).all isB58Char = true := by
    unfold base58encodeChars
    rw [List.all_append, Bool.and_eq_true]
    refine ⟨?_, ?_⟩
    · rw [List.all_eq_true]
      intro c hc
      obtain ⟨b, _, rfl⟩ := List.mem_map.mp hc
      decide
    · rw [List.all_eq_true]
      intro c hc
      obtain ⟨d, hd, rfl⟩ := List.mem_map.mp hc
      exact (b58_char_facts d (hdig_lt d (List.mem_reverse.mp hd))).1
  -- the leading "1" run of the encoding is exactly the zero-byte run
  have hones : ∀ c ∈ (bs.takeWhile (fun b => b == 0)).map (fun _ => '1'),
      (fun c => c == '1') c = true := by
    intro c hc
    obtain ⟨b, _, rfl⟩ := List.mem_map.mp hc
    decide
  have htw : (base58encodeChars bs).takeWhile (fun c => c == '1')
      = (bs.takeWhile (fun b => b == 0)).map (fun _ => '1') := by
    unfold base58encodeChars
    rw [takeWhile_append_all _ _ _ hones]
    rcases hn0 : bytesToNumberBE bs with _ | m
    · simp [Nat.digits_zero]
    · -- nonzero: the most significant digit is ≠ 0, so its character is not '1'
      have hne : bytesToNumberBE bs ≠ 0 := by omega
      rw [← hn0]
      cases hrev : (Nat.digits 58 (bytesToNumberBE bs)).reverse with
      | nil =>
        rw [List.reverse_eq_nil_iff] at hrev
        exact absurd hrev (Nat.digits_ne_nil_iff_ne_zero.mpr hne)
      | cons msd t =>
        have hmsd_mem : msd ∈ Nat.digits 58 (bytesToNumberBE bs) := by
          have : msd ∈ (Nat.digits 58 (bytesToNumberBE bs)).reverse := by
            rw [hrev]; exact List.mem_cons_self _ _
          exact List.mem_reverse.mp this
        have hmsd_lt : msd < 58 := hdig_lt msd hmsd_mem
        have hmsd_ne : msd ≠ 0 := by
          have hnn : Nat.digits 58 (bytesToNumberBE bs) ≠ [] :=
            Nat.digits_ne_nil_iff_ne_zero.mpr hne
          have hgl := Nat.getLast_digit_ne_zero 58 hne
          have : (Nat.digits 58 (bytesToNumberBE bs)).getLast? = some msd := by
            rw [← List.head?_reverse, hrev, List.head?_cons]
          rw [List.getLast?_eq_getLast _ hnn] at this
          injection this with this
          rw [← this]
          exact hgl
        have hchar : (b58Char msd == '1') = false := by
          have hiff := (b58_char_facts msd hmsd_lt).2.2
          rw [beq_eq_false_iff_ne]
          intro hcontra
          exact hmsd_ne (hiff.mp hcontra)
        have hneg : ¬ ((b58Char msd == '1') = true) := by
          simp only [hchar]
          exact Bool.false_ne_true
        rw [List.map_cons, List.takeWhile_cons_of_neg (p := fun c => c == '1') hneg,
          List.append_nil]
  -- the positional value of the encoding is the byte value
  have hval : (base58encodeChars bs).foldl (fun acc c => acc * 58 + b58Val c) 0
      = bytesToNumberBE bs := by
    unfold base58encodeChars
    rw [List.foldl_append]
    have h1 : ((bs.takeWhile (fun b => b == 0)).map (fun _ => '1')).foldl
        (fun acc c => acc * 58 + b58Val c) 0 = 0 := by
      refine foldl58_zeros _ ?_
      intro c hc
      obtain ⟨b, _, rfl⟩ := List.mem_map.mp hc
      decide
    rw [h1]
    have hmap : ((Nat.digits 58 (bytesToNumberBE bs)).reverse.map b58Char).map b58Val
        = (Nat.digits 58 (bytesToNumberBE bs)).reverse := by
      rw [List.map_map]
      have := List.map_congr_left (l := (Nat.digits 58 (bytesToNumberBE bs)).reverse)
        (f := b58Val ∘ b58Char) (g := id)
        (fun d hd => (b58_char_facts d (hdig_lt d (List.mem_reverse.mp hd))).2.1)
      rw [this, List.map_id]
    calc ((Nat.digits 58 (bytesToNumberBE bs)).reverse.map b58Char).foldl
          (fun acc c => acc * 58 + b58Val c) 0
        = (((Nat.digits 58 (bytesToNumberBE bs)).reverse.map b58Char).map b58Val).foldl
          (fun acc d => acc * 58 + d) 0 := (List.foldl_map _ _ _ _).symm
      _ = ((Nat.digits 58 (bytesToNumberBE bs)).reverse).foldl
          (fun acc d => acc * 58 + d) 0 := by rw [hmap]
      _ = Nat.ofDigits 58 (Nat.digits 58 (bytesToNumberBE bs)).reverse.reverse := by
          rw [foldlBE_eq_ofDigits]
      _ = bytesToNumberBE bs := by rw [List.reverse_reverse, Nat.ofDigits_digits]
  -- the byte reconstruction recovers the nonzero tail
  have hdig256 : (Nat.digits 256 (bytesToNumberBE bs)).reverse
      = bs.dropWhile (fun b => b == 0) := by
    cases hr : bs.dropWhile (fun b => b == 0) with
    | nil =>
      rw [hn, hr]
      simp [bytesToNumberBE, Nat.digits_zero]
    | cons r t =>
      have hrne : r ≠ 0 := dropWhile_head_ne_zero hr
      have hofd : bytesToNumberBE bs = Nat.ofDigits 256 (r :: t).reverse := by
        rw [hn, hr, beNat_eq_ofDigits]
      rw [hofd, Nat.digits_ofDigits 256 (by norm_num) ((r :: t).reverse) ?_ ?_,
        List.reverse_reverse]
      · intro l hl
        have : l ∈ r :: t := List.mem_reverse.mp hl
        rw [← hr] at this
        exact hrest_lt l this
      · intro hne'
        have h1 : ((r :: t).reverse).getLast? = some r := by
          rw [List.getLast?_reverse]
          rfl
        rw [List.getLast?_eq_getLast _ hne'] at h1
        injection h1 with h1
        rw [h1]
        exact hrne
  -- assemble
  unfold base58decodeChars
  rw [if_pos hvalid, htw, hval, hdig256]
  rw [List.map_map]
  have hzz : (bs.takeWhile (fun b => b == 0)).map ((fun _ => (0 : Nat)) ∘ (fun _ => '1')) =
      bs.takeWhile (fun b => b == 0) := by
    have hcg := List.map_congr_left (l := bs.takeWhile (fun b => b == 0))
      (f := (fun _ => (0 : Nat)) ∘ (fun _ => '1')) (g := id)
      (fun b hbz => by simp [hz0 b hbz])
    rw [hcg, List.map_id]
  rw [hzz, hsplit]



/-- An affine secp256k1 point, by its coordinates (the representation the
serialization code works with). -/
structure AffinePoint where
  x : Nat
  y : Nat
deriving DecidableEq

/-- What noble's `Point.fromBytes`/`assertValidity` checks when parsing an
uncompressed point: coordinates in the field and the curve equation
`y² = x³ + 7 (mod p)`. -/
def validPoint (pt : AffinePoint) : Bool :=
  decide (pt.x < secpP) && decide (pt.y < secpP) &&
    decide (pt.y ^ 2 % secpP = (pt.x ^ 3 + 7) % secpP)

/-- `SECP256K1_PREFIX` constant of `omni-key.ts`, as characters. -/
def SECP256K1_PREFIX : List Char := "secp256k1:".data

/-- The `near` getter of `OmniKey`:
`SECP256K1_PREFIX + base58.encode(publicKey.toBytes(false).slice(1))` —
the 64 coordinate bytes without the `0x04` tag. -/
def nearEncode (pt : AffinePoint) : List Char :=
  SECP256K1_PREFIX ++
    base58encodeChars (numberToBytesBE pt.x 32 ++ numberToBytesBE pt.y 32)

/-- noble `secp256k1.Point.fromBytes` on an uncompressed encoding: a
65-byte input with tag byte `0x04`, coordinates parsed big-endian and
validated against the curve. -/
def pointFromBytes (bs : List Nat) : Except String AffinePoint :=
  if bs.length = 65 ∧ bs.headD 0 = 4 then
    if validPoint ⟨bytesToNumberBE ((bs.drop 1).take 32), bytesToNumberBE (bs.drop 33)⟩ then
      .ok ⟨bytesToNumberBE ((bs.drop 1).take 32), bytesToNumberBE (bs.drop 33)⟩
    else .error "Point invalid: not on curve"
  else .error "invalid point encoding"

/-- `OmniKey.fromNEAR`: the prefix check, the base58 decode (which throws
on characters outside the alphabet) and the 64-byte length check all run
before `Point.fromBytes` — the only curve operation — is reached. -/
def nearDecode (cs : List Char) : Except String AffinePoint :=
  if cs.take 10 ≠ SECP256K1_PREFIX then .error "Must start with 'secp256k1:'"
  else
    match base58decodeChars (cs.drop 10) with
    | none => .error "Unknown letter: non-base58 character"
    | some decoded =>
      if decoded.length ≠ 64 then .error "Public key must be exactly 64 bytes"
      else pointFromBytes (4 :: decoded)

/-- Encoding then decoding a valid point through the NEAR wire format
reproduces the point. -/
theorem near_roundtrip (pt : AffinePoint) (hv : validPoint pt = true) :
    nearDecode (nearEncode pt) = .ok pt := by
  have hvv := hv
  unfold validPoint at hvv
  simp only [Bool.and_eq_true, decide_eq_true_eq] at hvv
  have hx256 : pt.x < 256 ^ 32 := by
    have := hvv.1.1
    norm_num [secpP] at this ⊢
    omega
  have hy256 : pt.y < 256 ^ 32 := by
    have := hvv.1.2
    norm_num [secpP] at this ⊢
    omega
  have hxlen := numberToBytesBE_length pt.x 32
  have hylen := numberToBytesBE_length pt.y 32
  have hlen : (numberToBytesBE pt.x 32 ++ numberToBytesBE pt.y 32).length = 64 := by
    rw [List.length_append, hxlen, hylen]
  have hlt : ∀ b ∈ numberToBytesBE pt.x 32 ++ numberToBytesBE pt.y 32, b < 256 := by
    intro b hb
    rcases List.mem_append.mp hb with h | h
    · exact numberToBytesBE_lt _ _ b h
    · exact numberToBytesBE_lt _ _ b h
  have htake : (nearEncode pt).take 10 = SECP256K1_PREFIX := by
    unfold nearEncode
    exact List.take_left' (h := rfl)
  have hdrop : (nearEncode pt).drop 10 =
      base58encodeChars (numberToBytesBE pt.x 32 ++ numberToBytesBE pt.y 32) := by
    unfold nearEncode
    exact List.drop_left' (h := rfl)
  have hdec : base58decodeChars ((nearEncode pt).drop 10) =
      some (numberToBytesBE pt.x 32 ++ numberToBytesBE pt.y 32) := by
    rw [hdrop]
    exact base58_roundtrip _ hlt
  have hxpart : ((numberToBytesBE pt.x 32 ++ numberToBytesBE pt.y 32).take 32) =
      numberToBytesBE pt.x 32 := List.take_left' hxlen
  have hypart : ((numberToBytesBE pt.x 32 ++ numberToBytesBE pt.y 32).drop 32) =
      numberToBytesBE pt.y 32 := List.drop_left' hxlen
  unfold nearDecode
  rw [hdec]
  simp only [htake, ne_eq, not_true_eq_false, if_false]
  rw [hlen]
  simp only [not_true_eq_false, if_false]
  have e1 : bytesToNumberBE
      ((((4 : Nat) :: (numberToBytesBE pt.x 32 ++ numberToBytesBE pt.y 32)).drop 1).take 32)
      = pt.x := by
    rw [List.drop_succ_cons, List.drop_zero, hxpart]
    exact beNat_numberToBytesBE pt.x 32 hx256
  have e2 : bytesToNumberBE
      (((4 : Nat) :: (numberToBytesBE pt.x 32 ++ numberToBytesBE pt.y 32)).drop 33)
      = pt.y := by
    rw [List.drop_succ_cons, hypart]
    exact beNat_numberToBytesBE pt.y 32 hy256
  unfold pointFromBytes
  rw [if_pos ⟨by simp [hlen], rfl⟩, e1, e2, if_pos (show validPoint ⟨pt.x, pt.y⟩ = true from hv)]

/-- A wrong prefix fails before any curve operation. -/
theorem nearDecode_bad_prefix (cs : List Char) (h : cs.take 10 ≠ SECP256K1_PREFIX) :
    nearDecode cs = .error "Must start with 'secp256k1:'" := by
  unfold nearDecode
  rw [if_pos h]

/-- A payload that does not decode to exactly 64 bytes fails before any
curve operation. -/
theorem nearDecode_bad_length (cs : List Char) (decoded : List Nat)
    (hpre : cs.take 10 = SECP256K1_PREFIX)
    (hdec : base58decodeChars (cs.drop 10) = some decoded)
    (hlen : decoded.length ≠ 64) :
    nearDecode cs = .error "Public key must be exactly 64 bytes" := by
  unfold nearDecode
  rw [if_neg (not_not_intro hpre), hdec]
  dsimp only
  rw [if_pos hlen]

/-- x-coordinate of the secp256k1 base point `G`. -/
def secpGx : Nat := 0x79BE667EF9DCBBAC55A06295CE870B07029BFCDB2DCE28D959F2815B16F81798
/-- y-coordinate of the secp256k1 base point `G`. -/
def secpGy : Nat := 0x483ADA7726A3C4655DA4FBFC0E1108A8FD17B448A68554199C47D08FFB10D4B8

/-- **C9** (confirmed): for every valid public-key point, encoding it as
`"secp256k1:" + base58(64 coordinate bytes)` and decoding the result
yields a key whose point equals the original; decoding fails with an
error when the prefix is wrong, and fails with an error when the decoded
payload is not exactly 64 bytes — in both cases before `Point.fromBytes`,
the only curve operation, is attempted. -/
theorem C9_near_wire_roundtrip :
    (∀ pt : AffinePoint, validPoint pt = true →
      nearDecode (nearEncode pt) = .ok pt) ∧
    (∀ cs : List Char, cs.take 10 ≠ SECP256K1_PREFIX →
      nearDecode cs = .error "Must start with 'secp256k1:'") ∧
    (∀ (cs : List Char) (decoded : List Nat), cs.take 10 = SECP256K1_PREFIX →
      base58decodeChars (cs.drop 10) = some decoded → decoded.length ≠ 64 →
      nearDecode cs = .error "Public key must be exactly 64 bytes") :=
  ⟨near_roundtrip, nearDecode_bad_prefix, nearDecode_bad_length⟩

/-- Witness for C9 at a concrete valid point (the secp256k1 base point). -/
theorem C9_near_wire_roundtrip_witness :
    nearDecode (nearEncode ⟨secpGx, secpGy⟩) = .ok ⟨secpGx, secpGy⟩ :=
  C9_near_wire_roundtrip.1 ⟨secpGx, secpGy⟩ (by decide)
